import Mathlib

/-!
Shallow embedding of the viewport-driven media tile manager of
`src/components/motion-library.tsx` and `src/components/effects-library.tsx`:
the module-level poster cache (a JS `Map`), the `loadeddata` handler that
captures a poster frame and starts playback, the per-tile mount/unmount state
machine driven by `IntersectionObserver` callbacks and `setTimeout`, the
audio-focus toggle of `MotionLibrary`, and the rendered surface of a tile.
-/

namespace MediaTile

/-! ### Poster cache: `const posterCache = new Map<string, string>()`

A JS `Map` is modelled as an association list in insertion order.
`Map.get` / `Map.has` / `Map.set` keep JS semantics: `set` overwrites in
place when the key exists, otherwise appends. -/

abbrev PosterCache := List (String × String)

def mapGet (m : PosterCache) (k : String) : Option String :=
  match m.find? (fun p => p.1 == k) with
  | some p => some p.2
  | none => none

def mapHas (m : PosterCache) (k : String) : Bool :=
  (m.find? (fun p => p.1 == k)).isSome

def mapSet (m : PosterCache) (k v : String) : PosterCache :=
  if mapHas m k then m.map (fun p => if p.1 == k then (k, v) else p)
  else m ++ [(k, v)]

/-- The cache write performed by `handleLoadedData`: guarded by
`if (!posterCache.has(video.id))`, so an existing entry is never touched. -/
def setIfAbsent (m : PosterCache) (k v : String) : PosterCache :=
  if mapHas m k then m else mapSet m k v

/-! ### `handleLoadedData`: poster capture and playback start

`canvas.getContext("2d")` may return `null` (no draw, no store), and
`ctx.drawImage` / `canvas.toDataURL` may throw a cross-origin
`SecurityError`; the code wraps them in `try { ... } catch { }`.
`vid.play()` returns a promise whose rejection is absorbed by
`.catch(() => { })`. -/

inductive CaptureOutcome where
  | ok (dataUrl : String)
  | noCtx
  | securityError
deriving Repr, DecidableEq

/-- The fallible part of the capture: drawing the frame and encoding it.
`Except.error` models the thrown `SecurityError`. -/
def captureFrame (o : CaptureOutcome) : Except String (Option String) :=
  match o with
  | .ok u => .ok (some u)
  | .noCtx => .ok none
  | .securityError => .error "SecurityError"

/-- `handleLoadedData` of `VideoCard` / `EffectCard`: tries the capture under
the `has` guard with the `catch` absorbing a throw, then always calls
`vid.play().catch(() => { })`. Result: the new cache, whether a play request
was issued, and whether playback is running afterward (`playOk` is the
platform's verdict on the play request). The whole handler never
propagates an error, hence the `Except` result is always `ok`. -/
def handleLoadedData (c : PosterCache) (id : String) (o : CaptureOutcome)
    (playOk : Bool) : Except String (PosterCache × Bool × Bool) :=
  let c1 :=
    if mapHas c id then c
    else
      match captureFrame o with
      | .ok (some u) => mapSet c id u
      | .ok none => c
      | .error _ => c
  Except.ok (c1, true, playOk)

/-! ### Tile descriptor and rendered surface -/

structure MotionVideo where
  id : String
  src : String
  poster : Option String
deriving Repr, DecidableEq

inductive Surface where
  | liveVideo (posterAttr : Option String)
  | cachedPoster (url : String)
  | fallbackPoster (url : String)
  | blank
deriving Repr, DecidableEq

/-- The rendered surface of `VideoCard` (lines 182–207): when `shouldMount`,
a `<video>` whose `poster` attribute is `posterUrl ?? video.poster`;
otherwise a `<div>` whose background is the cached poster when present and
the bare background colour otherwise. -/
def renderSurface (shouldMount : Bool) (cache : PosterCache)
    (video : MotionVideo) : Surface :=
  let posterUrl := mapGet cache video.id
  if shouldMount then
    Surface.liveVideo (posterUrl.orElse fun _ => video.poster)
  else
    match posterUrl with
    | some u => Surface.cachedPoster u
    | none => Surface.blank

/-- Modelled from the spec (for comparison with `renderSurface`): the
precedence the spec states for the tile surface — live video when mounted,
else the session-cached poster, else the descriptor's own
`fallbackPosterUrl`, else a blank placeholder. -/
def renderSurfaceSpec (shouldMount : Bool) (cache : PosterCache)
    (video : MotionVideo) : Surface :=
  if shouldMount then
    Surface.liveVideo ((mapGet cache video.id).orElse fun _ => video.poster)
  else
    match mapGet cache video.id with
    | some u => Surface.cachedPoster u
    | none =>
      match video.poster with
      | some u => Surface.fallbackPoster u
      | none => Surface.blank

/-! ### Audio focus (`MotionLibrary`)

`handleToggleAudio` : `setActiveAudioId((prev) => (prev === videoId ? null : videoId))`;
`effectiveActiveAudioId = open ? activeAudioId : null`;
each card receives `isAudioActive={effectiveActiveAudioId === video.id}`
and its muted-sync effect sets `vid.muted` from it, re-muting when an
unmuted play request is rejected. -/

def toggleAudio (prev : Option String) (videoId : String) : Option String :=
  if prev = some videoId then none else some videoId

def runAudio (calls : List String) : Option String :=
  calls.foldl toggleAudio none

def isAudioActive (active : Option String) (id : String) : Bool :=
  active == some id

/-- The muted-sync effect (lines 148–160): an audio-active tile is unmuted
unless its unmuted play request is rejected (the `.catch` re-mutes it);
every other tile is forced muted. -/
def syncedMuted (isActive : Bool) (playOk : Bool) : Bool :=
  if isActive then (if playOk then false else true) else true

/-- The audio-relevant state of `MotionLibrary`: the `open` prop and the
`activeAudioId` state. Closing the gallery never writes `activeAudioId`
(the only writer is `handleToggleAudio`). -/
structure GalleryAudio where
  isOpen : Bool
  activeAudioId : Option String
deriving Repr, DecidableEq

def effectiveActiveAudioId (g : GalleryAudio) : Option String :=
  if g.isOpen then g.activeAudioId else none

def cardIsAudioActive (g : GalleryAudio) (id : String) : Bool :=
  effectiveActiveAudioId g == some id

inductive GalleryEv where
  | toggle (id : String)
  | setOpen (b : Bool)
deriving Repr, DecidableEq

def galleryStep (g : GalleryAudio) : GalleryEv → GalleryAudio
  | .toggle id => { g with activeAudioId := toggleAudio g.activeAudioId id }
  | .setOpen b => { g with isOpen := b }

/-! ### Per-tile lifecycle state machine

The `IntersectionObserver` callback of `VideoCard` / `EffectCard`:
on `isIntersecting` (a *near* report) it clears the referenced unmount
timer, nulls the ref, and sets `shouldMount := true`; otherwise (a *far*
report) it schedules `setTimeout(() => setShouldMount(false), 500)` and
stores the handle in `unmountTimerRef` (without clearing a previous one).
The effect cleanup (*destroy*) disconnects the observer and clears the
referenced timer; React removes the `<video>` element with the component.
Time is explicit: a `tick dt` advances the clock and runs every scheduled
timeout whose deadline has passed; a timeout that was cleared never runs,
and a state setter on an unmounted component is a no-op. -/

def debounceMs : Nat := 500

inductive Ev where
  | near
  | far
  | tick (dt : Nat)
  | destroy
deriving Repr, DecidableEq

structure Tile where
  /-- the `shouldMount` state -/
  mounted : Bool
  /-- the component has been unmounted (effect cleanup has run) -/
  destroyed : Bool
  /-- live `setTimeout` callbacks: (handle, absolute deadline in ms) -/
  timers : List (Nat × Nat)
  /-- `unmountTimerRef.current` -/
  timerRef : Option Nat
  /-- next timeout handle (browsers hand out positive handles) -/
  nextId : Nat
  /-- current clock, ms -/
  now : Nat
deriving Repr, DecidableEq

def initTile (eager : Bool) : Tile :=
  { mounted := eager, destroyed := false, timers := [], timerRef := none,
    nextId := 1, now := 0 }

/-- `if (unmountTimerRef.current) clearTimeout(unmountTimerRef.current)`. -/
def clearRefTimer (s : Tile) : Tile :=
  { s with timers := s.timers.filter (fun e => ! decide (s.timerRef = some e.1)) }

/-- Run every due timeout: each callback is `setShouldMount(false)`, a no-op
once the component is unmounted. -/
def fireDue (s : Tile) : Tile :=
  let due := s.timers.filter (fun e => decide (e.2 ≤ s.now))
  { s with
    timers := s.timers.filter (fun e => ! decide (e.2 ≤ s.now)),
    mounted := if due = [] ∨ s.destroyed = true then s.mounted else false }

def step (s : Tile) : Ev → Tile
  | .near =>
    if s.destroyed then s
    else
      let s1 := clearRefTimer s
      { s1 with timerRef := none, mounted := true }
  | .far =>
    if s.destroyed then s
    else
      { s with timers := s.timers ++ [(s.nextId, s.now + debounceMs)],
               timerRef := some s.nextId,
               nextId := s.nextId + 1 }
  | .tick dt => fireDue { s with now := s.now + dt }
  | .destroy =>
    if s.destroyed then s
    else
      let s1 := clearRefTimer s
      { s1 with destroyed := true }

def run (s : Tile) (evs : List Ev) : Tile := evs.foldl step s

/-- A live decodable resource exists: the component is present and its
`shouldMount` state is true. -/
def hasLiveResource (s : Tile) : Bool := s.mounted && ! s.destroyed

/-! Visibility traces. The observer reports transitions of the boolean
`isIntersecting` signal (plus one initial report), so consecutive near/far
reports alternate. `polAfter` tracks the last reported polarity
(`some true` = near). When `allowColdFar` is false we additionally require
the first report to be near (no far report before any near). -/

def polAfter (pol : Option Bool) : Ev → Option Bool
  | .near => some true
  | .far => some false
  | _ => pol

def lastPol (pol : Option Bool) (evs : List Ev) : Option Bool :=
  evs.foldl polAfter pol

def evOk (allowColdFar : Bool) (pol : Option Bool) : Ev → Bool
  | .near => pol != some true
  | .far => (pol != some false) && (allowColdFar || pol != none)
  | _ => true

def visOk (allowColdFar : Bool) (pol : Option Bool) : List Ev → Bool
  | [] => true
  | e :: r => evOk allowColdFar pol e && visOk allowColdFar (polAfter pol e) r

/-- Number of detachments of the live resource while consuming `evs`:
transitions of `mounted` from true to false along the trajectory. -/
def detaches (s : Tile) : List Ev → Nat
  | [] => 0
  | e :: r =>
    (if s.mounted = true ∧ (step s e).mounted = false then 1 else 0) +
      detaches (step s e) r

/-! ### Invariants of observer-generated traces -/

/-- Structural invariant: a destroyed tile has no pending timeouts; at most
one timeout is pending and it is the referenced one; a pending timeout means
the last visibility report was far. -/
def TileInv (s : Tile) (pol : Option Bool) : Prop :=
  (s.destroyed = true → s.timers = []) ∧
  (s.timers = [] ∨ ∃ i d, s.timers = [(i, d)] ∧ s.timerRef = some i) ∧
  (s.timers ≠ [] → pol = some false)

/-- Mount invariant (holds when far reports are only delivered after a near
report, or the tile is eager-mounted): a pending release timer is only ever
scheduled for a mounted tile. -/
def MountInv (eager : Bool) (s : Tile) (pol : Option Bool) : Prop :=
  (pol = none → s.mounted = eager) ∧
  (pol = some true → s.destroyed = false → s.mounted = true) ∧
  (s.timers ≠ [] → s.mounted = true)

theorem clearRef_timers (s : Tile)
    (hB : s.timers = [] ∨ ∃ i d, s.timers = [(i, d)] ∧ s.timerRef = some i) :
    (clearRefTimer s).timers = [] := by
  rcases hB with h | ⟨i, d, ht, hr⟩
  · simp [clearRefTimer, h]
  · simp [clearRefTimer, ht, hr]

theorem step_near_eq (s : Tile) (hd : s.destroyed = false)
    (hB : s.timers = [] ∨ ∃ i d, s.timers = [(i, d)] ∧ s.timerRef = some i) :
    step s .near = { s with mounted := true, timers := [], timerRef := none } := by
  have h := clearRef_timers s hB
  simp only [clearRefTimer] at h
  simp [step, hd, clearRefTimer, h]

theorem step_far_eq (s : Tile) (hd : s.destroyed = false) :
    step s .far =
      { s with timers := s.timers ++ [(s.nextId, s.now + debounceMs)],
               timerRef := some s.nextId, nextId := s.nextId + 1 } := by
  simp [step, hd]

theorem step_tick_empty (s : Tile) (dt : Nat) (h : s.timers = []) :
    step s (.tick dt) = { s with now := s.now + dt } := by
  simp [step, fireDue, h]

theorem step_tick_pending_lt (s : Tile) (dt i d : Nat) (h : s.timers = [(i, d)])
    (hlt : s.now + dt < d) :
    step s (.tick dt) = { s with now := s.now + dt } := by
  have hnle : ¬ (d ≤ s.now + dt) := by omega
  simp [step, fireDue, h, hnle]

theorem step_tick_pending_ge (s : Tile) (dt i d : Nat) (h : s.timers = [(i, d)])
    (hge : d ≤ s.now + dt) (hd : s.destroyed = false) :
    step s (.tick dt) =
      { s with now := s.now + dt, timers := [], mounted := false } := by
  simp [step, fireDue, h, hge, hd]

theorem step_destroy_eq (s : Tile) (hd : s.destroyed = false)
    (hB : s.timers = [] ∨ ∃ i d, s.timers = [(i, d)] ∧ s.timerRef = some i) :
    step s .destroy = { s with timers := [], destroyed := true } := by
  have h := clearRef_timers s hB
  simp only [clearRefTimer] at h
  simp [step, hd, clearRefTimer, h]

theorem destroyed_of_timers_ne (s : Tile) (pol : Option Bool) (hT : TileInv s pol)
    (h : s.timers ≠ []) : s.destroyed = false := by
  cases hdes : s.destroyed
  · rfl
  · exact absurd (hT.1 hdes) h

theorem timers_empty_of_pol (s : Tile) (pol : Option Bool) (hT : TileInv s pol)
    (hp : pol ≠ some false) : s.timers = [] := by
  by_contra h
  exact hp (hT.2.2 h)

theorem tileInv_step (acf : Bool) (s : Tile) (pol : Option Bool) (e : Ev)
    (hT : TileInv s pol) (he : evOk acf pol e = true) :
    TileInv (step s e) (polAfter pol e) := by
  obtain ⟨hA, hB, hC⟩ := hT
  cases e with
  | near =>
    cases hdes : s.destroyed
    · rw [step_near_eq s hdes hB]
      exact ⟨fun _ => rfl, Or.inl rfl, fun h => absurd rfl h⟩
    · have ht : s.timers = [] := hA hdes
      simp only [step, hdes, if_true]
      exact ⟨fun _ => ht, Or.inl ht, fun h => absurd ht h⟩
  | far =>
    cases hdes : s.destroyed
    · have hp : pol ≠ some false := by
        simp only [evOk, Bool.and_eq_true, bne_iff_ne, ne_eq] at he
        exact he.1
      have ht : s.timers = [] := timers_empty_of_pol s pol ⟨hA, hB, hC⟩ hp
      rw [step_far_eq s hdes]
      refine ⟨fun h => by simp_all, ?_, fun _ => rfl⟩
      exact Or.inr ⟨s.nextId, s.now + debounceMs, by simp [ht], rfl⟩
    · have ht : s.timers = [] := hA hdes
      simp only [step, hdes, if_true]
      exact ⟨fun _ => ht, Or.inl ht, fun h => absurd ht h⟩
  | tick dt =>
    rcases hB with ht | ⟨i, d, ht, hr⟩
    · rw [step_tick_empty s dt ht]
      exact ⟨fun _ => ht, Or.inl ht, fun h => absurd ht h⟩
    · have hdes : s.destroyed = false :=
        destroyed_of_timers_ne s pol ⟨hA, Or.inr ⟨i, d, ht, hr⟩, hC⟩ (by simp [ht])
      by_cases hdue : d ≤ s.now + dt
      · rw [step_tick_pending_ge s dt i d ht hdue hdes]
        exact ⟨fun _ => rfl, Or.inl rfl, fun h => absurd rfl h⟩
      · rw [step_tick_pending_lt s dt i d ht (by omega)]
        refine ⟨fun h => by simp_all, Or.inr ⟨i, d, ht, hr⟩, fun _ => ?_⟩
        exact hC (by simp [ht])
  | destroy =>
    cases hdes : s.destroyed
    · rw [step_destroy_eq s hdes hB]
      exact ⟨fun _ => rfl, Or.inl rfl, fun h => absurd rfl h⟩
    · have ht : s.timers = [] := hA hdes
      simp only [step, hdes, if_true]
      exact ⟨fun _ => ht, Or.inl ht, fun h => absurd ht h⟩

theorem mountInv_step (eager : Bool) (s : Tile) (pol : Option Bool) (e : Ev)
    (hT : TileInv s pol) (hM : MountInv eager s pol)
    (he : evOk eager pol e = true) :
    MountInv eager (step s e) (polAfter pol e) := by
  obtain ⟨hA, hB, hC⟩ := hT
  obtain ⟨h0, h1, h2⟩ := hM
  cases e with
  | near =>
    simp only [polAfter]
    cases hdes : s.destroyed
    · rw [step_near_eq s hdes hB]
      refine ⟨?_, fun _ _ => rfl, fun _ => rfl⟩
      intro h; exact nomatch h
    · have ht : s.timers = [] := hA hdes
      simp only [step, hdes, if_true]
      refine ⟨?_, ?_, fun h => absurd ht h⟩
      · intro h; exact nomatch h
      · intro _ hdf; simp [hdes] at hdf
  | far =>
    simp only [polAfter]
    cases hdes : s.destroyed
    · simp only [evOk, Bool.and_eq_true, bne_iff_ne, ne_eq, Bool.or_eq_true] at he
      have hmnt : s.mounted = true := by
        cases hpol : pol with
        | none =>
          rcases he.2 with heag | hne
          · rw [h0 hpol, heag]
          · simp [hpol] at hne
        | some b =>
          cases b
          · exact absurd hpol he.1
          · exact h1 hpol hdes
      rw [step_far_eq s hdes]
      refine ⟨?_, ?_, fun _ => hmnt⟩
      · intro h; exact nomatch h
      · intro h; exact nomatch h
    · have ht : s.timers = [] := hA hdes
      simp only [step, hdes, if_true]
      refine ⟨?_, ?_, fun h => absurd ht h⟩
      · intro h; exact nomatch h
      · intro h; exact nomatch h
  | tick dt =>
    simp only [polAfter]
    rcases hB with ht | ⟨i, d, ht, hr⟩
    · rw [step_tick_empty s dt ht]
      exact ⟨h0, h1, fun h => absurd ht h⟩
    · have hpol : pol = some false := hC (by simp [ht])
      have hdes : s.destroyed = false :=
        destroyed_of_timers_ne s pol ⟨hA, Or.inr ⟨i, d, ht, hr⟩, hC⟩ (by simp [ht])
      by_cases hdue : d ≤ s.now + dt
      · rw [step_tick_pending_ge s dt i d ht hdue hdes]
        refine ⟨?_, ?_, fun h => absurd rfl h⟩
        · intro h; simp [hpol] at h
        · intro h; simp [hpol] at h
      · rw [step_tick_pending_lt s dt i d ht (by omega)]
        exact ⟨h0, h1, fun _ => h2 (by simp [ht])⟩
  | destroy =>
    simp only [polAfter]
    cases hdes : s.destroyed
    · rw [step_destroy_eq s hdes hB]
      refine ⟨h0, ?_, fun h => absurd rfl h⟩
      intro _ hdf; exact nomatch hdf
    · have ht : s.timers = [] := hA hdes
      simp only [step, hdes, if_true]
      exact ⟨h0, h1, fun h => absurd ht h⟩

theorem tileInv_run (acf : Bool) (evs : List Ev) :
    ∀ (s : Tile) (pol : Option Bool), TileInv s pol → visOk acf pol evs = true →
    TileInv (run s evs) (lastPol pol evs) := by
  induction evs with
  | nil => intro s pol hT _; exact hT
  | cons e r ih =>
    intro s pol hT hv
    simp only [visOk, Bool.and_eq_true] at hv
    exact ih (step s e) (polAfter pol e) (tileInv_step acf s pol e hT hv.1) hv.2

theorem invs_run (eager : Bool) (evs : List Ev) :
    ∀ (s : Tile) (pol : Option Bool), TileInv s pol → MountInv eager s pol →
    visOk eager pol evs = true →
    TileInv (run s evs) (lastPol pol evs) ∧
      MountInv eager (run s evs) (lastPol pol evs) := by
  induction evs with
  | nil => intro s pol hT hM _; exact ⟨hT, hM⟩
  | cons e r ih =>
    intro s pol hT hM hv
    simp only [visOk, Bool.and_eq_true] at hv
    exact ih (step s e) (polAfter pol e) (tileInv_step eager s pol e hT hv.1)
      (mountInv_step eager s pol e hT hM hv.1) hv.2

/-! ### Closed forms for runs of pure time passage -/

theorem run_ticks_empty (ds : List Nat) :
    ∀ (s : Tile), s.timers = [] →
    run s (ds.map Ev.tick) = { s with now := s.now + ds.sum } := by
  induction ds with
  | nil => intro s _; simp [run]
  | cons d r ih =>
    intro s h
    have hstep := step_tick_empty s d h
    simp only [List.map_cons, run, List.foldl_cons]
    rw [hstep]
    have := ih { s with now := s.now + d } h
    simp only [run] at this
    rw [this]
    simp [Nat.add_assoc]

theorem run_ticks_pending (ds : List Nat) :
    ∀ (s : Tile) (i D : Nat), s.destroyed = false → s.mounted = true →
    s.timers = [(i, D)] → s.now < D →
    run s (ds.map Ev.tick) =
      if s.now + ds.sum < D then { s with now := s.now + ds.sum }
      else { s with now := s.now + ds.sum, timers := [], mounted := false } := by
  induction ds with
  | nil =>
    intro s i D _ _ _ hlt
    simp only [List.map_nil, run, List.foldl_nil, List.sum_nil, Nat.add_zero,
      if_pos hlt]
  | cons d r ih =>
    intro s i D hdes hm ht hlt
    simp only [List.map_cons, run, List.foldl_cons]
    by_cases hdue : D ≤ s.now + d
    · rw [step_tick_pending_ge s d i D ht hdue hdes]
      have := run_ticks_empty r { s with now := s.now + d, timers := [], mounted := false } rfl
      simp only [run] at this
      rw [this]
      have hcond : ¬ (s.now + (d :: r).sum < D) := by
        simp only [List.sum_cons]; omega
      rw [if_neg hcond]
      simp [List.sum_cons, Nat.add_assoc]
    · rw [step_tick_pending_lt s d i D ht (by omega)]
      have := ih { s with now := s.now + d } i D hdes hm ht (by simp; omega)
      simp only [run] at this
      rw [this]
      by_cases hc : s.now + d + r.sum < D
      · rw [if_pos (by simpa using hc), if_pos (by simp [List.sum_cons]; omega)]
        simp [Nat.add_assoc]
      · rw [if_neg (by simpa using hc), if_neg (by simp [List.sum_cons]; omega)]
        simp [Nat.add_assoc]

theorem detaches_ticks_empty (ds : List Nat) :
    ∀ (s : Tile), s.timers = [] → detaches s (ds.map Ev.tick) = 0 := by
  induction ds with
  | nil => intro s _; rfl
  | cons d r ih =>
    intro s h
    have hstep := step_tick_empty s d h
    simp only [List.map_cons, detaches, hstep]
    rw [ih { s with now := s.now + d } h]
    cases hm : s.mounted <;> simp [hm]

theorem detaches_ticks_pending (ds : List Nat) :
    ∀ (s : Tile) (i D : Nat), s.destroyed = false → s.mounted = true →
    s.timers = [(i, D)] → s.now < D →
    detaches s (ds.map Ev.tick) = if D ≤ s.now + ds.sum then 1 else 0 := by
  induction ds with
  | nil =>
    intro s i D _ _ _ hlt
    have h2 : ¬ (D ≤ s.now + ([] : List Nat).sum) := by simp; omega
    simp only [List.map_nil, detaches, if_neg h2]
  | cons d r ih =>
    intro s i D hdes hm ht hlt
    simp only [List.map_cons, detaches]
    by_cases hdue : D ≤ s.now + d
    · rw [step_tick_pending_ge s d i D ht hdue hdes]
      rw [detaches_ticks_empty r { s with now := s.now + d, timers := [], mounted := false } rfl]
      have hcond : D ≤ s.now + (d + r.sum) := by omega
      simp [hm, hcond]
    · rw [step_tick_pending_lt s d i D ht (by omega)]
      rw [ih { s with now := s.now + d } i D hdes hm ht (by simp; omega)]
      have hz : (if s.mounted = true ∧
          ({ s with now := s.now + d } : Tile).mounted = false then 1 else 0) = 0 := by
        simp [hm]
      rw [hz, Nat.zero_add]
      have hsum : s.now + d + r.sum = s.now + (d :: r).sum := by
        simp [List.sum_cons]; omega
      rw [show ({ s with now := s.now + d } : Tile).now = s.now + d from rfl, hsum]

theorem tileInv_init (eager : Bool) : TileInv (initTile eager) none :=
  ⟨fun h => by simp [initTile] at h, Or.inl rfl, fun h => absurd rfl h⟩

theorem mountInv_init (eager : Bool) : MountInv eager (initTile eager) none :=
  ⟨fun _ => rfl, fun h => by simp at h, fun h => absurd rfl h⟩

theorem run_append (s : Tile) (l1 l2 : List Ev) :
    run s (l1 ++ l2) = run (run s l1) l2 :=
  List.foldl_append ..

/-! ### Poster cache lemmas -/

theorem mapHas_eq_isSome (c : PosterCache) (k : String) :
    mapHas c k = (mapGet c k).isSome := by
  unfold mapHas mapGet
  cases c.find? (fun p => p.1 == k) <;> rfl

theorem mapGet_eq_none_of_not_has (c : PosterCache) (k : String)
    (h : mapHas c k = false) : mapGet c k = none := by
  rw [mapHas_eq_isSome] at h
  exact Option.not_isSome_iff_eq_none.mp (by simp [h])

theorem setIfAbsent_of_has (c : PosterCache) (k v : String)
    (h : mapHas c k = true) : setIfAbsent c k v = c := by
  simp [setIfAbsent, h]

theorem setIfAbsent_get_same (c : PosterCache) (k v : String) :
    mapGet (setIfAbsent c k v) k = some ((mapGet c k).getD v) := by
  unfold setIfAbsent
  cases hh : mapHas c k with
  | true =>
    rw [if_pos rfl]
    have hs : (mapGet c k).isSome = true := by rw [← mapHas_eq_isSome]; exact hh
    obtain ⟨w, hw⟩ := Option.isSome_iff_exists.mp hs
    rw [hw]
    rfl
  | false =>
    rw [if_neg (by simp [hh])]
    have hn : mapGet c k = none := mapGet_eq_none_of_not_has c k hh
    rw [hn]
    unfold mapSet
    rw [if_neg (by simp [hh])]
    unfold mapGet at hn ⊢
    rw [List.find?_append]
    cases hf : c.find? (fun p => p.1 == k) with
    | some p => rw [hf] at hn; simp at hn
    | none => simp [List.find?]

theorem setIfAbsent_get_other (c : PosterCache) (id v k : String) (hk : k ≠ id) :
    mapGet (setIfAbsent c id v) k = mapGet c k := by
  unfold setIfAbsent
  cases hh : mapHas c id with
  | true => rw [if_pos rfl]
  | false =>
    rw [if_neg (by simp [hh])]
    unfold mapSet
    rw [if_neg (by simp [hh])]
    unfold mapGet
    rw [List.find?_append]
    cases hf : c.find? (fun p => p.1 == k) with
    | some p => rfl
    | none =>
      have : (id == k) = false := beq_eq_false_iff_ne.mpr (fun h => hk h.symm)
      simp [List.find?, this]

theorem setIfAbsent_foldl_of_has (vs : List String) :
    ∀ (c : PosterCache) (k : String), mapHas c k = true →
    vs.foldl (fun a w => setIfAbsent a k w) c = c := by
  induction vs with
  | nil => intro c k _; rfl
  | cons v r ih =>
    intro c k h
    simp only [List.foldl_cons]
    rw [setIfAbsent_of_has c k v h]
    exact ih c k h

theorem setIfAbsent_foldl_get_other (vs : List String) :
    ∀ (c : PosterCache) (id k : String), k ≠ id →
    mapGet (vs.foldl (fun a w => setIfAbsent a id w) c) k = mapGet c k := by
  induction vs with
  | nil => intro c id k _; rfl
  | cons v r ih =>
    intro c id k hk
    simp only [List.foldl_cons]
    rw [ih (setIfAbsent c id v) id k hk, setIfAbsent_get_other c id v k hk]

/-! ### Claim theorems -/

/-- C2: the poster cache is write-once per key. Performing the guarded
`has`-then-`set` capture any number of times (here `1 + vs.length` times,
first with `v`) leaves the cache holding exactly the first stored value for
that id — the value already present, or else the first one written — and
leaves every other key untouched; no call errors or overwrites. -/
theorem poster_cache_write_once (c : PosterCache) (id v : String)
    (vs : List String) :
    mapGet ((v :: vs).foldl (fun a w => setIfAbsent a id w) c) id =
      some ((mapGet c id).getD v) ∧
    (∀ k, k ≠ id →
      mapGet ((v :: vs).foldl (fun a w => setIfAbsent a id w) c) k = mapGet c k) := by
  constructor
  · simp only [List.foldl_cons]
    have h1 : mapGet (setIfAbsent c id v) id = some ((mapGet c id).getD v) :=
      setIfAbsent_get_same c id v
    have hhas : mapHas (setIfAbsent c id v) id = true := by
      rw [mapHas_eq_isSome, h1]; rfl
    rw [setIfAbsent_foldl_of_has vs (setIfAbsent c id v) id hhas]
    exact h1
  · intro k hk
    simp only [List.foldl_cons]
    rw [setIfAbsent_foldl_get_other vs (setIfAbsent c id v) id k hk,
      setIfAbsent_get_other c id v k hk]

theorem poster_cache_write_once_witness :
    mapGet ((["a", "b"] : List String).foldl
      (fun a w => setIfAbsent a "1" w) ([] : PosterCache)) "1" = some "a" ∧
    mapGet ((["a", "b"] : List String).foldl
      (fun a w => setIfAbsent a "1" w) ([] : PosterCache)) "2" = none := by
  have h := poster_cache_write_once ([] : PosterCache) "1" "a" ["b"]
  exact ⟨by simpa using h.1, by simpa using h.2 "2" (by decide)⟩

/-- C9: poster-capture failure and playback-start rejection are locally
absorbed. `handleLoadedData` always returns `ok` (nothing propagates), a
play request is always issued afterward (even when the capture threw), a
rejected play request leaves the tile not playing, and a thrown capture
leaves the cache without a new entry for that id. -/
theorem capture_play_errors_absorbed (c : PosterCache) (id : String)
    (o : CaptureOutcome) (playOk : Bool) :
    (∃ c1, handleLoadedData c id o playOk = Except.ok (c1, true, playOk)) ∧
    handleLoadedData c id .securityError playOk = Except.ok (c, true, playOk) := by
  constructor
  · exact ⟨_, rfl⟩
  · unfold handleLoadedData captureFrame
    cases hh : mapHas c id <;> simp [hh]

/-- C3: for every sequence of audio focus-toggle calls across any number of
tiles, at most one tile is audio-focused at any point, and every
non-focused tile's muted-sync effect forces it muted. -/
theorem audio_focus_exclusive (calls : List String) (i j k : String) (p : Bool)
    (hi : isAudioActive (runAudio calls) i = true)
    (hj : isAudioActive (runAudio calls) j = true)
    (hk : isAudioActive (runAudio calls) k = false) :
    i = j ∧ syncedMuted (isAudioActive (runAudio calls) k) p = true := by
  constructor
  · unfold isAudioActive at hi hj
    have h1 : runAudio calls = some i := eq_of_beq hi
    have h2 : runAudio calls = some j := eq_of_beq hj
    rw [h1] at h2
    exact Option.some.inj h2
  · rw [hk]
    rfl

theorem audio_focus_exclusive_witness :
    ("a" : String) = "a" ∧
    syncedMuted (isAudioActive (runAudio ["a"]) "b") true = true :=
  audio_focus_exclusive ["a"] "a" "a" "b" true (by decide) (by decide) (by decide)

def runAudioFrom (a : Option String) (calls : List String) : Option String :=
  calls.foldl toggleAudio a

/-- C7 counterexample: starting from a state where tile "1" already holds
audio focus, toggling "1" twice consecutively ends with "1" focused again,
not with the focus holder at null. -/
theorem audio_toggle_twice_counterexample :
    runAudioFrom (some "1") ["1", "1"] = some "1" ∧
    (some "1" : Option String) ≠ none := by decide

/-- C7 amended: when the toggled id is not already the focus holder, two
consecutive toggles of it return the holder to null; a single toggle of an
id different from the current holder reassigns focus to it and revokes
every other tile (in particular the previous holder). When the id already
holds focus, the first toggle clears and the second re-grants it. -/
theorem audio_toggle_semantics (a : Option String) (id : String)
    (h : a ≠ some id) :
    toggleAudio (toggleAudio a id) id = none ∧
    toggleAudio a id = some id ∧
    (∀ prev, prev ≠ id → isAudioActive (toggleAudio a id) prev = false) := by
  have h1 : toggleAudio a id = some id := by simp [toggleAudio, h]
  refine ⟨?_, h1, ?_⟩
  · rw [h1]; simp [toggleAudio]
  · intro prev hp
    rw [h1]
    unfold isAudioActive
    rw [beq_eq_false_iff_ne]
    intro hcontra
    exact hp (Option.some.inj hcontra).symm

theorem audio_toggle_semantics_witness :
    toggleAudio (toggleAudio none "1") "1" = none ∧
    isAudioActive (toggleAudio none "1") "2" = false := by
  have h := audio_toggle_semantics none "1" (by decide)
  exact ⟨h.1, h.2.2 "2" (by decide)⟩

/-- C5 counterexample: an unmounted tile with no session-cached poster but a
descriptor-supplied fallback poster renders a blank surface — the code's
placeholder branch never consults `video.poster`, so the claimed fallback
precedence (live > cached > descriptor fallback > blank) does not hold. -/
theorem render_precedence_counterexample :
    renderSurface false [] ⟨"1", "v.mp4", some "fb.jpg"⟩ = Surface.blank ∧
    renderSurfaceSpec false [] ⟨"1", "v.mp4", some "fb.jpg"⟩ =
      Surface.fallbackPoster "fb.jpg" ∧
    renderSurface false [] ⟨"1", "v.mp4", some "fb.jpg"⟩ ≠
      renderSurfaceSpec false [] ⟨"1", "v.mp4", some "fb.jpg"⟩ := by decide

/-- C5 amended: the rendered surface is live video when mounted (its poster
attribute preferring the session-cached poster over the descriptor's own
poster); otherwise the session-cached poster when the cache has an entry
for the tile's id; otherwise a blank placeholder — the descriptor's
fallback poster URL is never used on the unmounted surface. -/
theorem render_precedence (m : Bool) (c : PosterCache) (v : MotionVideo) :
    (m = true → renderSurface m c v =
      Surface.liveVideo ((mapGet c v.id).orElse fun _ => v.poster)) ∧
    (m = false → ∀ u, mapGet c v.id = some u →
      renderSurface m c v = Surface.cachedPoster u) ∧
    (m = false → mapGet c v.id = none → renderSurface m c v = Surface.blank) := by
  refine ⟨?_, ?_, ?_⟩
  · intro hm; subst hm; simp [renderSurface]
  · intro hm u hu; subst hm; simp [renderSurface, hu]
  · intro hm hu; subst hm; simp [renderSurface, hu]

theorem render_precedence_witness :
    renderSurface false [("1", "p.webp")] ⟨"1", "v.mp4", some "fb.jpg"⟩ =
      Surface.cachedPoster "p.webp" :=
  (render_precedence false [("1", "p.webp")] ⟨"1", "v.mp4", some "fb.jpg"⟩).2.1
    rfl "p.webp" (by decide)

/-- C10: while the gallery is closed no tile is audio-focused, but closing
does not clear the stored focus id, so reopening without further toggles
makes the same tile audio-focused again. -/
theorem audio_focus_survives_close (a : Option String) (id t : String) :
    cardIsAudioActive ⟨false, a⟩ id = false ∧
    galleryStep ⟨true, a⟩ (GalleryEv.setOpen false) = ⟨false, a⟩ ∧
    galleryStep ⟨false, a⟩ (GalleryEv.setOpen true) = ⟨true, a⟩ ∧
    cardIsAudioActive ⟨true, some t⟩ t = true := by
  refine ⟨?_, rfl, rfl, ?_⟩
  · simp [cardIsAudioActive, effectiveActiveAudioId]
  · simp [cardIsAudioActive, effectiveActiveAudioId]

/-- C1: a near→far→near sequence whose second near arrives before the 500 ms
debounce fires never detaches the live resource: after any
observer-generated prefix on a still-live tile, `mounted` is true at every
point of the suffix, no detach occurs, and the pending release timer is
cancelled by the second near. -/
theorem debounce_cancellation (eager : Bool) (pre : List Ev) (a b : Nat)
    (hb : b < debounceMs)
    (hv : visOk true none pre = true)
    (hd : (run (initTile eager) pre).destroyed = false) :
    (run (initTile eager) (pre ++ [Ev.near])).mounted = true ∧
    (run (initTile eager) (pre ++ [Ev.near, Ev.tick a])).mounted = true ∧
    (run (initTile eager) (pre ++ [Ev.near, Ev.tick a, Ev.far])).mounted = true ∧
    (run (initTile eager)
      (pre ++ [Ev.near, Ev.tick a, Ev.far, Ev.tick b])).mounted = true ∧
    (run (initTile eager)
      (pre ++ [Ev.near, Ev.tick a, Ev.far, Ev.tick b, Ev.near])).mounted = true ∧
    (run (initTile eager)
      (pre ++ [Ev.near, Ev.tick a, Ev.far, Ev.tick b, Ev.near])).timers = [] ∧
    detaches (run (initTile eager) (pre ++ [Ev.near]))
      [Ev.tick a, Ev.far, Ev.tick b, Ev.near] = 0 := by
  obtain ⟨hA, hB, hC⟩ :=
    tileInv_run true pre (initTile eager) none (tileInv_init eager) hv
  set s0 := run (initTile eager) pre with hs0
  have e1 : step s0 .near = { s0 with mounted := true, timers := [], timerRef := none } :=
    step_near_eq s0 hd hB
  set s1 : Tile := { s0 with mounted := true, timers := [], timerRef := none }
    with hs1
  have e2 : step s1 (.tick a) = { s1 with now := s1.now + a } :=
    step_tick_empty s1 a rfl
  set s2 : Tile := { s1 with now := s1.now + a } with hs2
  have hd2 : s2.destroyed = false := hd
  have e3 : step s2 .far =
      { s2 with timers := s2.timers ++ [(s2.nextId, s2.now + debounceMs)],
                timerRef := some s2.nextId, nextId := s2.nextId + 1 } :=
    step_far_eq s2 hd2
  set s3 : Tile :=
    { s2 with timers := s2.timers ++ [(s2.nextId, s2.now + debounceMs)],
              timerRef := some s2.nextId, nextId := s2.nextId + 1 } with hs3
  have ht3 : s3.timers = [(s2.nextId, s2.now + debounceMs)] := rfl
  have e4 : step s3 (.tick b) = { s3 with now := s3.now + b } :=
    step_tick_pending_lt s3 b s2.nextId (s2.now + debounceMs) ht3
      (Nat.add_lt_add_left hb _)
  set s4 : Tile := { s3 with now := s3.now + b } with hs4
  have hd4 : s4.destroyed = false := hd
  have e5 : step s4 .near = { s4 with mounted := true, timers := [], timerRef := none } :=
    step_near_eq s4 hd4
      (Or.inr ⟨s2.nextId, s2.now + debounceMs, rfl, rfl⟩)
  refine ⟨?_, ?_, ?_, ?_, ?_, ?_, ?_⟩
  · rw [run_append]
    show (run s0 [Ev.near]).mounted = true
    simp only [run, List.foldl_cons, List.foldl_nil, e1]
  · rw [run_append]
    show (run s0 [Ev.near, Ev.tick a]).mounted = true
    simp only [run, List.foldl_cons, List.foldl_nil, e1, ← hs1, e2]
  · rw [run_append]
    show (run s0 [Ev.near, Ev.tick a, Ev.far]).mounted = true
    simp only [run, List.foldl_cons, List.foldl_nil, e1, ← hs1, e2, ← hs2, e3]
  · rw [run_append]
    show (run s0 [Ev.near, Ev.tick a, Ev.far, Ev.tick b]).mounted = true
    simp only [run, List.foldl_cons, List.foldl_nil, e1, ← hs1, e2, ← hs2, e3,
      ← hs3, e4]
  · rw [run_append]
    show (run s0 [Ev.near, Ev.tick a, Ev.far, Ev.tick b, Ev.near]).mounted = true
    simp only [run, List.foldl_cons, List.foldl_nil, e1, ← hs1, e2, ← hs2, e3,
      ← hs3, e4, ← hs4, e5]
  · rw [run_append]
    show (run s0 [Ev.near, Ev.tick a, Ev.far, Ev.tick b, Ev.near]).timers = []
    simp only [run, List.foldl_cons, List.foldl_nil, e1, ← hs1, e2, ← hs2, e3,
      ← hs3, e4, ← hs4, e5]
  · rw [run_append]
    show detaches (run s0 [Ev.near]) [Ev.tick a, Ev.far, Ev.tick b, Ev.near] = 0
    simp only [run, List.foldl_cons, List.foldl_nil, e1, ← hs1]
    simp only [detaches, e2, ← hs2, e3, ← hs3, e4, ← hs4, e5]
    simp

theorem debounce_cancellation_witness :
    (run (initTile false)
      ([] ++ [Ev.near, Ev.tick 100, Ev.far, Ev.tick 499, Ev.near])).mounted
        = true ∧
    (run (initTile false)
      ([] ++ [Ev.near, Ev.tick 100, Ev.far, Ev.tick 499, Ev.near])).timers = [] ∧
    detaches (run (initTile false) ([] ++ [Ev.near]))
      [Ev.tick 100, Ev.far, Ev.tick 499, Ev.near] = 0 := by
  have h := debounce_cancellation false [] 100 499 (by decide) (by decide)
    (by decide)
  exact ⟨h.2.2.2.2.1, h.2.2.2.2.2.1, h.2.2.2.2.2.2⟩

/-- C4 counterexample: the observer's initial report for a below-the-fold,
non-eager tile is far (`isIntersecting === false`), which schedules a
release timer while `mounted` is still false — a reachable state with a
non-null pending release and no live resource. -/
theorem pending_release_unmounted_counterexample :
    (run (initTile false) [Ev.far]).timers ≠ [] ∧
    (run (initTile false) [Ev.far]).mounted = false ∧
    visOk true none [Ev.far] = true := by decide

/-- C4 amended: over observer-generated event sequences in which a far
report only arrives after the tile has been near — or the tile is
eager-mounted — a non-null pending release timer implies the tile is
mounted. (The unrestricted claim fails: the observer's initial far report
for a non-eager off-screen tile schedules a release while unmounted, whose
firing is a no-op.) -/
theorem pending_release_implies_mounted (eager : Bool) (pre : List Ev)
    (hv : visOk eager none pre = true)
    (ht : (run (initTile eager) pre).timers ≠ []) :
    (run (initTile eager) pre).mounted = true := by
  have h := invs_run eager pre (initTile eager) none (tileInv_init eager)
    (mountInv_init eager) hv
  exact h.2.2.2 ht

theorem pending_release_implies_mounted_witness :
    (run (initTile false) [Ev.near, Ev.far]).mounted = true :=
  pending_release_implies_mounted false [Ev.near, Ev.far] (by decide) (by decide)

/-- C6: from a mounted tile, a far report followed by any amount of pure
time passage leaves the tile mounted exactly while the elapsed time is
below the 500 ms debounce window, and the number of detaches is exactly one
once the window has elapsed and zero before — never early, never more than
once. -/
theorem debounce_completion (eager : Bool) (pre : List Ev) (ds : List Nat)
    (hv : visOk true none pre = true)
    (hp : lastPol none pre ≠ some false)
    (hd : (run (initTile eager) pre).destroyed = false)
    (hm : (run (initTile eager) pre).mounted = true) :
    (run (initTile eager) (pre ++ [Ev.far] ++ ds.map Ev.tick)).mounted =
      decide (ds.sum < debounceMs) ∧
    detaches (run (initTile eager) (pre ++ [Ev.far])) (ds.map Ev.tick) =
      if debounceMs ≤ ds.sum then 1 else 0 := by
  have hT := tileInv_run true pre (initTile eager) none (tileInv_init eager) hv
  set s0 := run (initTile eager) pre with hs0
  have ht0 : s0.timers = [] := timers_empty_of_pol s0 (lastPol none pre) hT hp
  have e1 : step s0 .far =
      { s0 with timers := s0.timers ++ [(s0.nextId, s0.now + debounceMs)],
                timerRef := some s0.nextId, nextId := s0.nextId + 1 } :=
    step_far_eq s0 hd
  have e1' : step s0 .far =
      { s0 with timers := [(s0.nextId, s0.now + debounceMs)],
                timerRef := some s0.nextId, nextId := s0.nextId + 1 } := by
    rw [e1, ht0]
    rfl
  set s1 : Tile :=
    { s0 with timers := [(s0.nextId, s0.now + debounceMs)],
              timerRef := some s0.nextId, nextId := s0.nextId + 1 } with hs1
  have hrun1 : run (initTile eager) (pre ++ [Ev.far]) = s1 := by
    rw [run_append, ← hs0]
    show step s0 .far = s1
    rw [e1']
  have hlt : s1.now < s0.now + debounceMs := by
    show s0.now < s0.now + debounceMs
    have : 0 < debounceMs := by simp [debounceMs]
    omega
  have hclosed := run_ticks_pending ds s1 s0.nextId (s0.now + debounceMs)
    hd hm rfl hlt
  constructor
  · rw [run_append, hrun1, hclosed]
    by_cases hc : ds.sum < debounceMs
    · have : s1.now + ds.sum < s0.now + debounceMs := by
        show s0.now + ds.sum < s0.now + debounceMs
        omega
      rw [if_pos this]
      simp [hc]
      exact hm
    · have : ¬ (s1.now + ds.sum < s0.now + debounceMs) := by
        show ¬ (s0.now + ds.sum < s0.now + debounceMs)
        omega
      rw [if_neg this]
      simp [hc]
  · rw [hrun1]
    rw [detaches_ticks_pending ds s1 s0.nextId (s0.now + debounceMs) hd hm rfl hlt]
    by_cases hc : debounceMs ≤ ds.sum
    · rw [if_pos hc, if_pos (by show s0.now + debounceMs ≤ s0.now + ds.sum; omega)]
    · rw [if_neg hc, if_neg (by show ¬ (s0.now + debounceMs ≤ s0.now + ds.sum); omega)]

theorem debounce_completion_witness :
    (run (initTile true) ([] ++ [Ev.far] ++ ([600] : List Nat).map Ev.tick)).mounted
        = false ∧
    detaches (run (initTile true) ([] ++ [Ev.far]))
        (([600] : List Nat).map Ev.tick) = 1 := by
  have h := debounce_completion true [] [600] (by decide) (by decide) (by decide)
    (by decide)
  exact ⟨by simpa using h.1, by simpa using h.2⟩

/-- C8: destroying a tile controller from any observer-reachable state
leaves no live resource and no pending timers; afterward time passage only
advances the clock (a timer firing post-destruction is a no-op and never
throws), and the disconnected observer delivers no further near/far
reactions. -/
theorem teardown_safety (eager : Bool) (pre : List Ev)
    (hv : visOk true none pre = true) :
    hasLiveResource (step (run (initTile eager) pre) Ev.destroy) = false ∧
    (step (run (initTile eager) pre) Ev.destroy).timers = [] ∧
    (∀ ds : List Nat,
      run (step (run (initTile eager) pre) Ev.destroy) (ds.map Ev.tick) =
        { step (run (initTile eager) pre) Ev.destroy with
            now := (step (run (initTile eager) pre) Ev.destroy).now + ds.sum }) ∧
    step (step (run (initTile eager) pre) Ev.destroy) Ev.near =
      step (run (initTile eager) pre) Ev.destroy ∧
    step (step (run (initTile eager) pre) Ev.destroy) Ev.far =
      step (run (initTile eager) pre) Ev.destroy := by
  obtain ⟨hA, hB, hC⟩ :=
    tileInv_run true pre (initTile eager) none (tileInv_init eager) hv
  set s0 := run (initTile eager) pre with hs0
  cases hdes : s0.destroyed with
  | false =>
    have e1 : step s0 .destroy = { s0 with timers := [], destroyed := true } :=
      step_destroy_eq s0 hdes hB
    rw [e1]
    refine ⟨?_, rfl, ?_, ?_, ?_⟩
    · simp [hasLiveResource]
    · intro ds
      exact run_ticks_empty ds { s0 with timers := [], destroyed := true } rfl
    · simp [step]
    · simp [step]
  | true =>
    have ht : s0.timers = [] := hA hdes
    have e1 : step s0 .destroy = s0 := by simp [step, hdes]
    rw [e1]
    refine ⟨?_, ht, ?_, ?_, ?_⟩
    · simp [hasLiveResource, hdes]
    · intro ds
      exact run_ticks_empty ds s0 ht
    · simp [step, hdes]
    · simp [step, hdes]

theorem teardown_safety_witness :
    hasLiveResource (step (run (initTile false) [Ev.near, Ev.far]) Ev.destroy)
        = false ∧
    (step (run (initTile false) [Ev.near, Ev.far]) Ev.destroy).timers = [] := by
  have h := teardown_safety false [Ev.near, Ev.far] (by decide)
  exact ⟨h.1, h.2.1⟩

end MediaTile
